import Mathlib

/-!
Verification of the incremental build engine (jtcmake / lightmake sources).

The filesystem is modelled as a value of type `FS`: a partial map from
paths to modification times (`mtime p = none` means the path does not
exist), a content-hash oracle (`hash p` is what `IVFile.get_hash` would
return for the file at `p`), and the parsed contents of the per-rule
metadata cache files (`meta`).  Paths are component lists (`PurePath`
split on separators).  Modification times are modelled as integers: the
source only compares them with `==`, `!=`, `>` and `<=`, so the exact
numeric type is irrelevant.

`Rule.should_update` threads the filesystem value through every step, so
its read-only character is a provable statement rather than a typing
convention; `Rule.postprocess` really mutates the threaded state.
-/

namespace JTCMake

/-- A filesystem path, as its list of components. -/
abbrev FPath := List String

/-- One segment of a DeepKey: Python argument keys are strings or ints. -/
inductive JKey where
  | str (s : String)
  | int (n : Int)
deriving DecidableEq, Repr

/-- A DeepKey: the tuple of segments locating an input inside a rule's
nested argument structure (the `tuple` keys of `xfiles`). -/
abbrev DeepKey := List JKey

/-- An input file of a rule: `isVFile = true` models an `IVFile`
(tracked-content artifact), `false` a plain `IFile`. -/
structure XFile where
  path : FPath
  isVFile : Bool
deriving DecidableEq, Repr

/-- One record of a metadata cache file: `(DeepKey, hash, mtime)`. -/
abbrev Entry := DeepKey × String × Int

/-- The filesystem state. `mtime p = some t` means the path exists with
modification time `t` (`os.path.exists` / `os.path.getmtime`); `hash p`
is the content hash `IVFile.get_hash` reports for `p`; `meta p` is the
parsed content of the metadata cache file at `p`, if that file exists. -/
structure FS where
  mtime : FPath → Option Int
  hash : FPath → String
  meta : FPath → Option (List Entry)

/-- `Rule.__init__`: name, output files (`yfiles`), keyed input files
(`xfiles`), dependency rules (`deplist`, by id).  The action callable
and its arguments are opaque to the staleness logic and are omitted. -/
structure Rule where
  id : Nat
  name : List String
  yfiles : List FPath
  xfiles : List (DeepKey × XFile)
  deplist : List Nat
deriving DecidableEq, Repr

/-- The two input-validation failures of `should_update` (the source
raises `Exception` with a "missing" / "mtime of 0" message; the spec
names them `MissingInputError` and `InvalidInputError`). -/
inductive SUErr where
  | missingInput (p : FPath)
  | invalidInput (p : FPath)
deriving DecidableEq, Repr

/-- Python `min` over a nonempty list of mtimes (`min(os.path.getmtime(f.path)
for f in self.yfiles)`).  The `[]` case is unreachable in the source
(rules have at least one output); it is given the junk value 0. -/
def listMin : List Int → Int
  | [] => 0
  | [t] => t
  | t :: rest => min t (listMin rest)

/-- `Rule.metadata_fname`: `PurePath(yfiles[0].path).parent / '.jtcmake'
/ p.name`.  On component lists: drop the last component, append
`.jtcmake` and the file name. -/
def Rule.metadata_fname (r : Rule) : FPath :=
  match r.yfiles with
  | [] => [".jtcmake"]
  | y :: _ => y.dropLast ++ [".jtcmake", y.getLastD ""]

/-- First loop of `should_update`: for each input, raise on a missing
path or an mtime of 0 outside dry-run, return `True` for either
condition during dry-run.  `.ok none` means the loop fell through. -/
def su_check_inputs (dry : Bool) (fs : FS) :
    List (DeepKey × XFile) → Except SUErr (Option Bool)
  | [] => .ok none
  | (_, f) :: rest =>
    match fs.mtime f.path with
    | none => if dry then .ok (some true) else .error (.missingInput f.path)
    | some t =>
      if t = 0 then
        if dry then .ok (some true) else .error (.invalidInput f.path)
      else su_check_inputs dry fs rest

/-- Second loop of `should_update`: collect the input VFiles newer than
the oldest output; a plain input newer than the oldest output returns
`True` immediately (modelled as `none`). -/
def su_collect (fs : FS) (oldest : Int) :
    List (DeepKey × XFile) → Option (List (DeepKey × XFile))
  | [] => some []
  | (k, f) :: rest =>
    if oldest < (fs.mtime f.path).getD 0 then
      if f.isVFile then
        (su_collect fs oldest rest).map (fun l => (k, f) :: l)
      else none
    else su_collect fs oldest rest

/-- Lookup in the dict `{tuple(k): (h,t) for k,h,t in entries}`: a
later entry for the same key overwrites an earlier one. -/
def hash_dic (entries : List Entry) (k : DeepKey) : Option (String × Int) :=
  entries.foldl (fun acc e => if e.1 = k then some e.2 else acc) none

/-- Final loop of `should_update`: a collected VFile whose key is absent
from the cache makes the rule stale; otherwise the rule is stale when
its mtime differs from the cached one and its recomputed hash differs
from the cached one (`mtime != mtime_ and f.get_hash() != hash_`). -/
def su_check_vfiles (fs : FS) (dic : DeepKey → Option (String × Int)) :
    List (DeepKey × XFile) → Bool
  | [] => false
  | (k, f) :: rest =>
    match dic k with
    | none => true
    | some (h, t) =>
      if (fs.mtime f.path).getD 0 ≠ t ∧ fs.hash f.path ≠ h then true
      else su_check_vfiles fs dic rest

/-- `load_vfile_hashes`: `[]` if the metadata file does not exist, else
its parsed JSON content. -/
def load_vfile_hashes (fs : FS) (p : FPath) : List Entry :=
  (fs.meta p).getD []

/-- The local `oldest_y` of `should_update`: the minimum output mtime. -/
def Rule.oldest_y (r : Rule) (fs : FS) : Int :=
  listMin (r.yfiles.map (fun y => (fs.mtime y).getD 0))

/-- `Rule.should_update(updated_rules, dry_run)`.  The filesystem value
is threaded through and returned, so that the absence of writes is a
theorem.  `updated` holds the ids of the rules already updated in this
run (`r in updated_rules` is id membership). -/
def Rule.should_update (r : Rule) (updated : List Nat) (dry : Bool)
    (fs : FS) : Except SUErr Bool × FS :=
  match su_check_inputs dry fs r.xfiles with
  | .error e => (.error e, fs)
  | .ok (some b) => (.ok b, fs)
  | .ok none =>
    if dry && r.deplist.any (fun d => decide (d ∈ updated)) then
      (.ok true, fs)
    else if r.yfiles.any (fun y => (fs.mtime y).isNone) then
      (.ok true, fs)
    else
      let oldest := r.oldest_y fs
      if oldest ≤ 0 then (.ok true, fs)
      else
        match su_collect fs oldest r.xfiles with
        | none => (.ok true, fs)
        | some xvfiles =>
          if 0 < xvfiles.length then
            let dic := hash_dic (load_vfile_hashes fs r.metadata_fname)
            (.ok (su_check_vfiles fs dic xvfiles), fs)
          else (.ok false, fs)

/-! ## JSON round trip

`create_vfile_hashes` does `json.loads(json.dumps(res))` on the list of
`(DeepKey, hash, mtime)` triples.  We model the JSON value space and
the encoding: a Python tuple or list dumps to a JSON array, a `str` to
a JSON string, an `int`/`float` to a JSON number.  Loading gives lists
back, and `should_update` converts the loaded keys back to tuples with
`tuple(k)`; on our `DeepKey` type that composite is provably the
identity. -/

/-- A JSON value (the fragment the metadata cache uses). -/
inductive JVal where
  | jstr (s : String)
  | jnum (n : Int)
  | jarr (l : List JVal)

/-- `json.dumps` of one DeepKey segment. -/
def encodeJKey : JKey → JVal
  | .str s => .jstr s
  | .int n => .jnum n

/-- `json.dumps` of a DeepKey (a tuple dumps to a JSON array). -/
def encodeKey (k : DeepKey) : JVal :=
  .jarr (k.map encodeJKey)

/-- `json.dumps` of one `(DeepKey, hash, mtime)` entry. -/
def encodeEntry (e : Entry) : JVal :=
  .jarr [encodeKey e.1, .jstr e.2.1, .jnum e.2.2]

/-- `json.dumps` of the whole metadata record. -/
def encodeEntries (es : List Entry) : JVal :=
  .jarr (es.map encodeEntry)

/-- `tuple(k)` applied to a loaded JSON key: succeeds on an array of
strings and numbers. -/
def decodeKey : JVal → Option DeepKey
  | .jarr l => l.mapM (fun v => match v with
      | .jstr s => some (.str s)
      | .jnum n => some (.int n)
      | .jarr _ => none)
  | _ => none

/-- Reading one loaded entry back as a `(DeepKey, hash, mtime)` triple. -/
def decodeEntry : JVal → Option Entry
  | .jarr [kv, .jstr h, .jnum t] => (decodeKey kv).map (fun k => (k, h, t))
  | _ => none

/-- Reading the whole loaded record back. -/
def decodeEntries : JVal → Option (List Entry)
  | .jarr l => l.mapM decodeEntry
  | _ => none

/-- The `json.loads(json.dumps(res))` round trip of
`create_vfile_hashes`.  (`[]` is unreachable: decoding an encoding
always succeeds, as proved below.) -/
def jsonRoundTrip (es : List Entry) : List Entry :=
  (decodeEntries (encodeEntries es)).getD []

/-! ## Post-processing -/

/-- Overwrite the mtime of one existing path. -/
def FS.setMtime (fs : FS) (p : FPath) (t : Int) : FS :=
  { fs with mtime := fun q => if q = p then some t else fs.mtime q }

/-- `os.utime(p, (0, 0))` for each output in turn.  `os.utime` raises
`FileNotFoundError` on a missing path and the loop body does not catch
it: the boolean records whether the loop completed, and the returned
state keeps the mtimes already set before the failure. -/
def utime_all_zero (fs : FS) : List FPath → FS × Bool
  | [] => (fs, true)
  | p :: rest =>
    match fs.mtime p with
    | none => (fs, false)
    | some _ => utime_all_zero (fs.setMtime p 0) rest

/-- `os.remove(metadata_fname)` wrapped in `try/except: pass`. -/
def FS.removeMeta (fs : FS) (p : FPath) : FS :=
  { fs with meta := fun q => if q = p then none else fs.meta q }

/-- The record `save_vfile_hashes` persists, before the JSON round
trip: `(DeepKey, hash, mtime)` for each given input. -/
def vfile_record (fs : FS) (vfiles : List (DeepKey × XFile)) : List Entry :=
  vfiles.map (fun e => (e.1, fs.hash e.2.path, (fs.mtime e.2.path).getD 0))

/-- `create_vfile_hashes(vfiles)`: `(k, f.get_hash(), getmtime(f.path))`
for each tracked input, passed through the JSON round trip.  (The
source's `os.path.getmtime` raises on a missing input; the claims using
this definition assume the inputs exist, and `getD 0` is the junk value
for the unreachable case.) -/
def create_vfile_hashes (fs : FS) (vfiles : List (DeepKey × XFile)) :
    List Entry :=
  jsonRoundTrip (vfile_record fs vfiles)

/-- `save_vfile_hashes(metadata_fname, vfiles)`: write the record,
replacing any previous content of the metadata file. -/
def save_vfile_hashes (fs : FS) (p : FPath)
    (vfiles : List (DeepKey × XFile)) : FS :=
  { fs with meta := fun q =>
      if q = p then some (create_vfile_hashes fs vfiles) else fs.meta q }

/-- The tracked-content inputs of a rule (`[(k,v) for k,v in
self.xfiles if isinstance(v, IVFile)]`). -/
def Rule.xvfiles (r : Rule) : List (DeepKey × XFile) :=
  r.xfiles.filter (fun e => e.2.isVFile)

/-- `Rule.update_xvfile_hashes`: save the record when the rule has at
least one tracked-content input, do nothing otherwise. -/
def Rule.update_xvfile_hashes (r : Rule) (fs : FS) : FS :=
  if 0 < r.xvfiles.length then save_vfile_hashes fs r.metadata_fname r.xvfiles
  else fs


/-- `Rule.postprocess(callback, succ)`.  On success, refresh the
metadata record.  On failure, set every output's mtime to 0 and then
delete the metadata file; the boolean is `false` when `os.utime` raised
on a missing output, in which case the deletion is never reached. -/
def Rule.postprocess (r : Rule) (succ : Bool) (fs : FS) : FS × Bool :=
  if succ then (r.update_xvfile_hashes fs, true)
  else
    match utime_all_zero fs r.yfiles with
    | (fs1, true) => (fs1.removeMeta r.metadata_fname, true)
    | (fs1, false) => (fs1, false)

/-! ## Log writers (`jtcmake/logwriter/writer.py`) -/

/-- The four log levels (`TLoglevel`). -/
inductive TLoglevel where
  | debug
  | info
  | warning
  | error
deriving DecidableEq, Repr

/-- `QUANT_LOG_LEVEL`. -/
def QUANT_LOG_LEVEL : TLoglevel → Nat
  | .debug => 10
  | .info => 20
  | .warning => 30
  | .error => 40

/-- An `IWriter` subclass: its configured `loglevel` together with the
subclass's `_write` implementation, modelled as a transformer of an
arbitrary sink state `σ` (a terminal, a file, a list of lines, ...). -/
structure IWriter (σ : Type) where
  loglevel : TLoglevel
  _write : σ → List String → TLoglevel → σ

/-- `IWriter.write`: forward to `_write` when
`QUANT_LOG_LEVEL[self.loglevel] <= QUANT_LOG_LEVEL[level]`, otherwise do
nothing.  Inherited unchanged by every subclass. -/
def IWriter.write (w : IWriter σ) (st : σ) (args : List String)
    (level : TLoglevel) : σ :=
  if QUANT_LOG_LEVEL w.loglevel ≤ QUANT_LOG_LEVEL level then
    w._write st args level
  else st

/-- The spec's severity ordering `debug < info < warning < error`,
written out by enumeration and independently of `QUANT_LOG_LEVEL`:
`levelLeSpec a b` says `a ≤ b` in that chain. -/
def levelLeSpec : TLoglevel → TLoglevel → Bool
  | .debug, _ => true
  | .info, .debug => false
  | .info, _ => true
  | .warning, .debug => false
  | .warning, .info => false
  | .warning, _ => true
  | .error, .error => true
  | .error, _ => false

/-! ## Event logging (`jtcmake/group_tree/event_logger.py`) -/

/-- The make events, with rules referred to by id.  Error events carry
the formatted stack trace string (`"".join(e.trace_exc.format())`). -/
inductive MakeEvent where
  | skip (rule : Nat) (isDirectTarget : Bool)
  | start (rule : Nat)
  | done (rule : Nat)
  | dryRun (rule : Nat)
  | updateInfeasible (rule : Nat) (reason : String)
  | preProcError (rule : Nat) (trace : String)
  | execError (rule : Nat) (trace : String)
  | postProcError (rule : Nat) (trace : String)
  | fatalError (trace : String)
  | stopOnFail
deriving DecidableEq, Repr

/-- `log_make_event(w, e, id2name)`, modelled as the list of
`(level, args)` writer calls it performs, in order.  `id2name` is the
rule-name resolver passed in by the caller; `methodName` stands for
`get_func_name(r.method)` and `describe` for the indented
`tostrs_func_call` rendering of the bound method call (both are
reflection over Python callables, opaque here).  Rich-string colour
attributes, which affect rendering but not levels or text, are
dropped. -/
def log_make_event (id2name : Nat → String) (methodName : Nat → String)
    (describe : Nat → List String) : MakeEvent → List (TLoglevel × List String)
  | .skip r true => [(.info, ["Skip ", id2name r])]
  | .skip r false => [(.debug, ["Skip ", id2name r])]
  | .start r => [(.info, ["Make ", id2name r, "\n"] ++ describe r)]
  | .done r => [(.info, ["Done ", id2name r])]
  | .dryRun r => [(.info, ["Make (dry) ", id2name r, "\n"] ++ describe r)]
  | .updateInfeasible r reason =>
      [(.error, ["Cannot make ", id2name r, ": " ++ reason])]
  | .preProcError r tr =>
      [(.warning, [tr]),
       (.error, ["Failed to make ", id2name r,
                 ": An error occured during preprocessing"])]
  | .execError r tr =>
      [(.warning, [tr]),
       (.error, ["Failed to make ", id2name r,
                 ": Method " ++ methodName r ++ " failed"])]
  | .postProcError r tr =>
      [(.warning, [tr]),
       (.error, ["Failed to make " ++ id2name r ++ ": " ++
                 "An error occured during post-processing. " ++
                 "Make sure to remove the output files (if any) " ++
                 "by yourself"])]
  | .fatalError tr => [(.warning, [tr]), (.error, ["Fatal error"])]
  | .stopOnFail => [(.warning, ["Execution aborted due to an error"])]

end JTCMake

namespace LightMake

/-! ## Rule registration (`lightmake/frontend.py`)

`Group.add` prefixes the nested output path, rejects a real path
already used under the root group, and only then constructs and
registers the rule.  The helpers `map_nested`, `flatten_nested` and the
core `Rule` class live in modules that are not among the sources; they
are modelled from the spec where noted. -/

/-- A nested output path: a string, a `NoPfxPath`, or a list/tuple or
dict of nested paths. -/
inductive NPath where
  | leaf (s : String)
  | nopfx (s : String)
  | seq (l : List NPath)
  | dict (l : List (String × NPath))

/-- `os.path.isabs`, POSIX: the path starts with a separator. -/
def isAbs (s : String) : Bool := decide (s.data.head? = some '/')

mutual

/-- Modelled from the spec: `flatten_nested` from `lightmake.utils`,
which is absent from the sources — it returns the leaf path strings of
a nested structure, in order.  (`Group.add` and `create_rule` only
apply it after prefixing, so `nopfx` leaves never occur there.) -/
def flatten_nested : NPath → List String
  | .leaf s => [s]
  | .nopfx s => [s]
  | .seq l => flatten_seq l
  | .dict l => flatten_dict l

def flatten_seq : List NPath → List String
  | [] => []
  | p :: rest => flatten_nested p ++ flatten_seq rest

def flatten_dict : List (String × NPath) → List String
  | [] => []
  | kv :: rest => flatten_nested kv.2 ++ flatten_dict rest

end

mutual

/-- `map_nested(path, lambda p: _add_pfx_to_simple_path(prefix, p))`:
an absolute string leaf is kept, a relative one gets the group's path
prefix prepended (`f'{path_prefix}{simple_path}'`), a `NoPfxPath` is
unwrapped.  (`map_nested` itself is from the absent `lightmake.utils`;
modelled from the spec as the structure-preserving map over leaves.) -/
def add_pfx (pfx : String) : NPath → NPath
  | .leaf s => if isAbs s then .leaf s else .leaf (pfx ++ s)
  | .nopfx s => .leaf s
  | .seq l => .seq (add_pfx_seq pfx l)
  | .dict l => .dict (add_pfx_dict pfx l)

def add_pfx_seq (pfx : String) : List NPath → List NPath
  | [] => []
  | p :: rest => add_pfx pfx p :: add_pfx_seq pfx rest

def add_pfx_dict (pfx : String) :
    List (String × NPath) → List (String × NPath)
  | [] => []
  | kv :: rest => (kv.1, add_pfx pfx kv.2) :: add_pfx_dict pfx rest

end

/-- The registration state of a root group: the real paths already used
by registered rules (`_path_str_set`) and the child names taken so far
(the keys of `_children`). -/
structure GroupState where
  path_str_set : List String
  children : List String
deriving DecidableEq, Repr

/-- The `ValueError`/`KeyError` kinds that `Group.add` and
`create_rule` can raise.  (The source messages also carry the offending
name or path; `realpaths` is a Python set, so which clashing path the
message names is unspecified, and the payload is therefore omitted.) -/
inductive AddError where
  | nameExists
  | pathUsed
  | noPath
deriving DecidableEq, Repr

/-- The output-path side of `create_rule`: raise `ValueError('path must
contain at least one str')` when the flattened path contains no path
strings, otherwise build the rule; the result is its list of output
path strings.  (The argument/`SELF` wiring and the core `Rule`
constructor, which the checked claims do not concern, are not
modelled.) -/
def create_rule (path : NPath) : Except AddError (List String) :=
  if (flatten_nested path).length = 0 then .error .noPath
  else .ok (flatten_nested path)

/-- `Group.add(name, path, method, ...)`, at one group with path prefix
`pfx` inside a root whose state is `g`.  `realpath` is
`os.path.realpath` (resolution depends on the real filesystem, so it is
a parameter).  In source order: reject a taken name, prefix the path,
reject any real path already used under the root, call `create_rule`,
and only then register the rule (extend `_path_str_set` and
`_children`).  An error leaves the state unregistered. -/
def group_add (realpath : String → String) (g : GroupState) (pfx : String)
    (name : String) (path : NPath) : Except AddError GroupState :=
  if name ∈ g.children then .error .nameExists
  else
    let path1 := add_pfx pfx path
    let realpaths := (flatten_nested path1).map realpath
    if realpaths.any (fun p => decide (p ∈ g.path_str_set)) then
      .error .pathUsed
    else
      match create_rule path1 with
      | .error e => .error e
      | .ok _ => .ok { path_str_set := g.path_str_set ++ realpaths,
                       children := g.children ++ [name] }

end LightMake

namespace JTCMake

/-! ## Helper lemmas -/

theorem su_check_inputs_ok (dry : Bool) (fs : FS) :
    ∀ xs : List (DeepKey × XFile),
    (∀ kf ∈ xs, ∃ t, fs.mtime kf.2.path = some t ∧ t ≠ 0) →
    su_check_inputs dry fs xs = .ok none := by
  intro xs
  induction xs with
  | nil => intro _; rfl
  | cons kf rest ih =>
    intro h
    obtain ⟨t, ht, ht0⟩ := h kf (List.mem_cons_self _ _)
    obtain ⟨k, f⟩ := kf
    simp only [su_check_inputs, ht]
    rw [if_neg ht0]
    exact ih (fun kf2 hm => h kf2 (List.mem_cons_of_mem _ hm))

theorem su_check_inputs_offender (fs : FS) :
    ∀ (xs : List (DeepKey × XFile)) (kf : DeepKey × XFile),
    kf ∈ xs →
    (∀ kf2 ∈ xs, kf2.2.path ≠ kf.2.path →
      ∃ t, fs.mtime kf2.2.path = some t ∧ t ≠ 0) →
    (fs.mtime kf.2.path = none →
      su_check_inputs false fs xs = .error (.missingInput kf.2.path)
      ∧ su_check_inputs true fs xs = .ok (some true))
    ∧ (fs.mtime kf.2.path = some 0 →
      su_check_inputs false fs xs = .error (.invalidInput kf.2.path)
      ∧ su_check_inputs true fs xs = .ok (some true)) := by
  intro xs
  induction xs with
  | nil => intro kf hm; exact absurd hm (List.not_mem_nil kf)
  | cons hd rest ih =>
    intro kf hm hothers
    obtain ⟨k0, f0⟩ := hd
    by_cases hp : f0.path = kf.2.path
    · constructor
      · intro hmiss
        constructor
        · simp [su_check_inputs, hp, hmiss]
        · simp [su_check_inputs, hp, hmiss]
      · intro hzero
        constructor
        · simp [su_check_inputs, hp, hzero]
        · simp [su_check_inputs, hp, hzero]
    · obtain ⟨t, ht, ht0⟩ := hothers (k0, f0) (List.mem_cons_self _ _) hp
      have hrest : kf ∈ rest := by
        rcases List.mem_cons.mp hm with heq | hr
        · exact absurd (by rw [heq]) hp
        · exact hr
      have ihh := ih kf hrest
        (fun kf2 h2 => hothers kf2 (List.mem_cons_of_mem _ h2))
      simp only [su_check_inputs, ht]
      simp only [if_neg ht0]
      exact ihh

/-! ## C3: input validation and its dry-run downgrade -/

/-- C3: for an input whose path is missing, non-dry-run `should_update`
fails with the missing-input error naming that path, and for an input
carrying the sentinel mtime 0 it fails with the invalid-input error;
in dry-run mode both conditions give a stale verdict instead.  The
other inputs of the rule are assumed healthy so that the named input is
the offender. -/
theorem claim_C3 : ∀ (r : Rule) (updated : List Nat) (fs : FS)
    (kf : DeepKey × XFile), kf ∈ r.xfiles →
    (∀ kf2 ∈ r.xfiles, kf2.2.path ≠ kf.2.path →
      ∃ t, fs.mtime kf2.2.path = some t ∧ t ≠ 0) →
    ((fs.mtime kf.2.path = none →
      (r.should_update updated false fs).1 = .error (.missingInput kf.2.path)
      ∧ (r.should_update updated true fs).1 = .ok true)
    ∧ (fs.mtime kf.2.path = some 0 →
      (r.should_update updated false fs).1 = .error (.invalidInput kf.2.path)
      ∧ (r.should_update updated true fs).1 = .ok true)) := by
  intro r u fs kf hm ho
  have h := su_check_inputs_offender fs r.xfiles kf hm ho
  constructor
  · intro hmiss
    obtain ⟨h1, h2⟩ := h.1 hmiss
    constructor
    · unfold Rule.should_update
      rw [h1]
    · unfold Rule.should_update
      rw [h2]
  · intro hzero
    obtain ⟨h1, h2⟩ := h.2 hzero
    constructor
    · unfold Rule.should_update
      rw [h1]
    · unfold Rule.should_update
      rw [h2]

/-- A rule with a single plain input at path `gone` (used by the C3
witness; the path does not exist in `w3FS`). -/
def w3Rule : Rule :=
  { id := 0, name := ["r"], yfiles := [["out"]],
    xfiles := [([JKey.int 0], { path := ["gone"], isVFile := false })],
    deplist := [] }

/-- A filesystem in which nothing exists. -/
def w3FS : FS :=
  { mtime := fun _ => none, hash := fun _ => "", meta := fun _ => none }

/-- Witness for C3: the missing input `gone` raises outside dry-run and
is downgraded to a stale verdict under dry-run. -/
theorem claim_C3_witness :
    (w3Rule.should_update [] false w3FS).1 = .error (.missingInput ["gone"])
    ∧ (w3Rule.should_update [] true w3FS).1 = .ok true := by
  have h := claim_C3 w3Rule [] w3FS ([JKey.int 0], ⟨["gone"], false⟩)
    (by simp [w3Rule])
    (by
      intro kf2 h2 hne
      simp only [w3Rule, List.mem_singleton] at h2
      subst h2
      exact absurd rfl hne)
  exact h.1 rfl

/-! ## C4: missing outputs, sentinel outputs, plain-input freshness -/

theorem su_collect_none (fs : FS) (oldest : Int) :
    ∀ xs : List (DeepKey × XFile),
    (∃ kf ∈ xs, kf.2.isVFile = false ∧ oldest < (fs.mtime kf.2.path).getD 0) →
    su_collect fs oldest xs = none := by
  intro xs
  induction xs with
  | nil => rintro ⟨kf, hm, _⟩; exact absurd hm (List.not_mem_nil kf)
  | cons hd rest ih =>
    rintro ⟨kf, hm, hplain, hnew⟩
    obtain ⟨k0, f0⟩ := hd
    rcases List.mem_cons.mp hm with heq | hr
    · subst heq
      simp only at hplain hnew
      simp [su_collect, hplain, hnew]
    · have hrec := ih ⟨kf, hr, hplain, hnew⟩
      by_cases h1 : oldest < (fs.mtime f0.path).getD 0
      · by_cases h2 : f0.isVFile = true
        · simp [su_collect, if_pos h1, h2, hrec]
        · simp [su_collect, if_pos h1, h2]
      · simp [su_collect, if_neg h1, hrec]

theorem su_collect_all_tracked (fs : FS) (oldest : Int) :
    ∀ xs : List (DeepKey × XFile),
    (∀ kf ∈ xs, oldest < (fs.mtime kf.2.path).getD 0 → kf.2.isVFile = true) →
    su_collect fs oldest xs
      = some (xs.filter
          (fun kf => decide (oldest < (fs.mtime kf.2.path).getD 0))) := by
  intro xs
  induction xs with
  | nil => intro _; rfl
  | cons hd rest ih =>
    intro h
    obtain ⟨k0, f0⟩ := hd
    have hrec := ih (fun kf hm => h kf (List.mem_cons_of_mem _ hm))
    by_cases h1 : oldest < (fs.mtime f0.path).getD 0
    · have h2 : f0.isVFile = true := h (k0, f0) (List.mem_cons_self _ _) h1
      simp [su_collect, if_pos h1, h2, hrec, List.filter_cons, h1]
    · simp [su_collect, if_neg h1, hrec, List.filter_cons, h1]

theorem yfiles_any_none_false (fs : FS) (ys : List FPath)
    (hall : ∀ y ∈ ys, (fs.mtime y).isSome = true) :
    (ys.any fun y => (fs.mtime y).isNone) = false := by
  rw [List.any_eq_false]
  intro y hy
  have h := hall y hy
  cases hmy : fs.mtime y with
  | none => rw [hmy] at h; exact absurd h (by decide)
  | some t => simp [hmy]

/-- C4: with all inputs present and valid and outside dry-run,
`should_update` answers stale when some declared output is missing;
when all outputs exist but the oldest output mtime is at most 0; and
when some plain (non-tracked) input is strictly newer than the oldest
output.  In the last case the verdict holds for every hash oracle
`fs.hash` and every cache state `fs.meta` (both are arbitrary in `fs`),
so no hash is computed and no cache is read to reach it. -/
theorem claim_C4 : ∀ (r : Rule) (updated : List Nat) (fs : FS),
    (∀ kf ∈ r.xfiles, ∃ t, fs.mtime kf.2.path = some t ∧ t ≠ 0) →
    (((∃ y ∈ r.yfiles, fs.mtime y = none) →
        (r.should_update updated false fs).1 = .ok true)
    ∧ ((∀ y ∈ r.yfiles, (fs.mtime y).isSome) → r.oldest_y fs ≤ 0 →
        (r.should_update updated false fs).1 = .ok true)
    ∧ ((∀ y ∈ r.yfiles, (fs.mtime y).isSome) → 0 < r.oldest_y fs →
        (∃ kf ∈ r.xfiles, kf.2.isVFile = false ∧
          r.oldest_y fs < (fs.mtime kf.2.path).getD 0) →
        (r.should_update updated false fs).1 = .ok true)) := by
  intro r u fs hx
  have hsu := su_check_inputs_ok false fs r.xfiles hx
  refine ⟨?_, ?_, ?_⟩
  · rintro ⟨y, hy, hynone⟩
    unfold Rule.should_update
    rw [hsu]
    have hany : (r.yfiles.any fun y2 => (fs.mtime y2).isNone) = true := by
      rw [List.any_eq_true]
      exact ⟨y, hy, by simp [hynone]⟩
    simp [hany]
  · intro hall hle
    unfold Rule.should_update
    rw [hsu]
    have hany := yfiles_any_none_false fs r.yfiles hall
    simp only [Bool.false_and, if_neg, hany, Bool.false_eq_true,
      not_false_eq_true, if_false]
    simp [if_pos hle]
  · intro hall hpos hplain
    unfold Rule.should_update
    rw [hsu]
    have hany := yfiles_any_none_false fs r.yfiles hall
    have hnone := su_collect_none fs (r.oldest_y fs) r.xfiles hplain
    simp [hany, if_neg (not_le.mpr hpos), hnone]

/-- The C4 witness rule: one plain input `in`, one output `out`. -/
def w4Rule : Rule :=
  { id := 0, name := ["r"], yfiles := [["out"]],
    xfiles := [([JKey.str "k"], { path := ["in"], isVFile := false })],
    deplist := [] }

/-- `in` exists, `out` does not. -/
def w4FSa : FS :=
  { mtime := fun p => if p = ["in"] then some 5 else none,
    hash := fun _ => "", meta := fun _ => none }

/-- `in` exists, `out` carries the sentinel mtime 0. -/
def w4FSb : FS :=
  { mtime := fun p => if p = ["in"] then some 5 else
      if p = ["out"] then some 0 else none,
    hash := fun _ => "", meta := fun _ => none }

/-- `in` (mtime 20) is newer than `out` (mtime 10). -/
def w4FSc : FS :=
  { mtime := fun p => if p = ["in"] then some 20 else
      if p = ["out"] then some 10 else none,
    hash := fun _ => "", meta := fun _ => none }

/-- Witness for C4: stale on a missing output, on a sentinel output,
and on a plain input newer than the oldest output. -/
theorem claim_C4_witness :
    (w4Rule.should_update [] false w4FSa).1 = .ok true
    ∧ (w4Rule.should_update [] false w4FSb).1 = .ok true
    ∧ (w4Rule.should_update [] false w4FSc).1 = .ok true := by
  refine ⟨?_, ?_, ?_⟩
  · refine (claim_C4 w4Rule [] w4FSa ?_).1 ⟨["out"], by simp [w4Rule], by decide⟩
    intro kf hm
    simp only [w4Rule, List.mem_singleton] at hm
    subst hm
    exact ⟨5, by decide, by decide⟩
  · refine ((claim_C4 w4Rule [] w4FSb ?_).2.1 ?_ (by decide))
    · intro kf hm
      simp only [w4Rule, List.mem_singleton] at hm
      subst hm
      exact ⟨5, by decide, by decide⟩
    · intro y hy
      simp only [w4Rule, List.mem_singleton] at hy
      subst hy
      decide
  · refine ((claim_C4 w4Rule [] w4FSc ?_).2.2 ?_ (by decide) ?_)
    · intro kf hm
      simp only [w4Rule, List.mem_singleton] at hm
      subst hm
      exact ⟨20, by decide, by decide⟩
    · intro y hy
      simp only [w4Rule, List.mem_singleton] at hy
      subst hy
      decide
    · exact ⟨([JKey.str "k"], ⟨["in"], false⟩), by simp [w4Rule], by decide, by decide⟩

/-! ## C6: `should_update` does not change the filesystem -/

/-- C6: `should_update` is read-only: in both dry-run and normal mode,
for every rule and every filesystem state, the state after evaluation
is exactly the state before — no file is created, deleted or touched,
no mtime changes, and the metadata cache is not written. -/
theorem claim_C6 : ∀ (r : Rule) (updated : List Nat) (dry : Bool) (fs : FS),
    (r.should_update updated dry fs).2 = fs := by
  intro r u d fs
  unfold Rule.should_update
  repeat' first
  | rfl
  | dsimp only
  | split

/-! ## C5: dry-run dependency propagation -/

/-- C5: in dry-run mode, when every input exists with a nonzero mtime
and some direct dependency is in the updated set, `should_update`
answers stale for every filesystem state (outputs and cache are never
consulted: `fs.mtime` on outputs, `fs.meta` and `fs.hash` are
universally quantified).  Outside dry-run the updated set does not
influence the result at all. -/
theorem claim_C5 : ∀ (r : Rule) (fs : FS),
    ((∀ kf ∈ r.xfiles, ∃ t, fs.mtime kf.2.path = some t ∧ t ≠ 0) →
      ∀ updated : List Nat, (∃ d ∈ r.deplist, d ∈ updated) →
      (r.should_update updated true fs).1 = .ok true)
    ∧ (∀ u1 u2 : List Nat,
        r.should_update u1 false fs = r.should_update u2 false fs) := by
  intro r fs
  constructor
  · rintro hx u ⟨d, hd, hdu⟩
    unfold Rule.should_update
    rw [su_check_inputs_ok true fs r.xfiles hx]
    have hany : r.deplist.any (fun d2 => decide (d2 ∈ u)) = true := by
      rw [List.any_eq_true]
      exact ⟨d, hd, by simpa using hdu⟩
    simp [hany]
  · intro u1 u2
    unfold Rule.should_update
    cases h : su_check_inputs false fs r.xfiles with
    | error e => rfl
    | ok ob =>
      cases ob with
      | none => simp
      | some b => rfl

/-- A concrete rule used by the witnesses: one output `out`, one
tracked input `in` at key `("k",)`, one dependency (rule 1). -/
def wRule : Rule :=
  { id := 0, name := ["r"], yfiles := [["out"]],
    xfiles := [([JKey.str "k"], { path := ["in"], isVFile := true })],
    deplist := [1] }

/-- A concrete filesystem: `in` has mtime 5, `out` has mtime 10. -/
def wFS : FS :=
  { mtime := fun p => if p = ["in"] then some 5 else
      if p = ["out"] then some 10 else none,
    hash := fun _ => "h",
    meta := fun _ => none }

/-- Witness for C5 at the concrete rule and filesystem. -/
theorem claim_C5_witness :
    (wRule.should_update [1] true wFS).1 = .ok true
    ∧ wRule.should_update [1] false wFS = wRule.should_update [2] false wFS := by
  constructor
  · refine (claim_C5 wRule wFS).1 ?_ [1] ⟨1, by decide, by decide⟩
    intro kf hm
    simp only [wRule, List.mem_singleton] at hm
    subst hm
    exact ⟨5, by decide, by decide⟩
  · exact (claim_C5 wRule wFS).2 [1] [2]

/-! ## C9: skip events and their severity -/

/-- C9: a `Skip` event for a rule that was a direct target is written
through `w.info` (severity `info`), a `Skip` for a rule reached only as
a dependency through `w.debug` (severity `debug`); the message text is
the same. -/
theorem claim_C9 : ∀ (id2name : Nat → String) (methodName : Nat → String)
    (describe : Nat → List String) (r : Nat),
    log_make_event id2name methodName describe (.skip r true)
      = [(.info, ["Skip ", id2name r])]
    ∧ log_make_event id2name methodName describe (.skip r false)
      = [(.debug, ["Skip ", id2name r])] := by
  intro id2name methodName describe r
  exact ⟨rfl, rfl⟩

/-! ## C10: writer level filtering -/

/-- C10: `IWriter.write` forwards to the subclass `_write` exactly when
the message level is at least the configured level in the order
`debug < info < warning < error` (stated via `levelLeSpec`, an
independent spelling of that chain), and otherwise leaves the sink
untouched — for every subclass, i.e. every `_write` implementation. -/
theorem claim_C10 : ∀ (σ : Type) (w : IWriter σ) (st : σ)
    (args : List String) (level : TLoglevel),
    ((QUANT_LOG_LEVEL w.loglevel ≤ QUANT_LOG_LEVEL level)
        ↔ levelLeSpec w.loglevel level = true)
    ∧ (levelLeSpec w.loglevel level = true →
        w.write st args level = w._write st args level)
    ∧ (levelLeSpec w.loglevel level = false →
        w.write st args level = st) := by
  intro σ w st args level
  have hq : ∀ a b : TLoglevel,
      (QUANT_LOG_LEVEL a ≤ QUANT_LOG_LEVEL b) ↔ levelLeSpec a b = true := by
    intro a b
    cases a <;> cases b <;> decide
  refine ⟨hq _ _, ?_, ?_⟩
  · intro h
    unfold IWriter.write
    rw [if_pos ((hq _ _).mpr h)]
  · intro h
    unfold IWriter.write
    rw [if_neg (fun hc => by rw [(hq _ _).mp hc] at h; exact Bool.noConfusion h)]

/-! ## C2: failure post-processing -/

theorem utime_all_zero_ok :
    ∀ (ys : List FPath) (fs : FS),
    (∀ y ∈ ys, (fs.mtime y).isSome = true) →
    ((utime_all_zero fs ys).2 = true
    ∧ (∀ y ∈ ys, (utime_all_zero fs ys).1.mtime y = some 0)
    ∧ (∀ p, p ∉ ys → (utime_all_zero fs ys).1.mtime p = fs.mtime p)
    ∧ (utime_all_zero fs ys).1.hash = fs.hash
    ∧ (utime_all_zero fs ys).1.meta = fs.meta) := by
  intro ys
  induction ys with
  | nil =>
    intro fs _
    exact ⟨rfl, by simp, fun p _ => rfl, rfl, rfl⟩
  | cons y rest ih =>
    intro fs h
    obtain ⟨t, hmy⟩ := Option.isSome_iff_exists.mp (h y (List.mem_cons_self _ _))
    have hstep : utime_all_zero fs (y :: rest)
        = utime_all_zero (fs.setMtime y 0) rest := by
      simp [utime_all_zero, hmy]
    have hrest : ∀ y2 ∈ rest, ((fs.setMtime y 0).mtime y2).isSome = true := by
      intro y2 hy2
      by_cases he : y2 = y
      · subst he; simp [FS.setMtime]
      · simpa [FS.setMtime, he] using h y2 (List.mem_cons_of_mem _ hy2)
    obtain ⟨c1, c2, c3, c4, c5⟩ := ih (fs.setMtime y 0) hrest
    rw [hstep]
    refine ⟨c1, ?_, ?_, c4, c5⟩
    · intro y2 hy2
      rcases List.mem_cons.mp hy2 with he | hr
      · subst he
        by_cases hin : y2 ∈ rest
        · exact c2 y2 hin
        · rw [c3 y2 hin]; simp [FS.setMtime]
      · exact c2 y2 hr
    · intro p hp
      have hpy : p ≠ y := fun he => hp (he ▸ List.mem_cons_self _ _)
      have hpr : p ∉ rest := fun hr => hp (List.mem_cons_of_mem _ hr)
      rw [c3 p hpr]
      simp [FS.setMtime, hpy]

/-- The C2 rule: two outputs `o1` and `o2`. -/
def c2Rule : Rule :=
  { id := 0, name := ["C"], yfiles := [["o1"], ["o2"]],
    xfiles := [], deplist := [] }

/-- A state after a failed action that wrote only `o1`: `o2` does not
exist; a metadata record for the rule is present. -/
def c2FSbad : FS :=
  { mtime := fun p => if p = ["o1"] then some 5 else none,
    hash := fun _ => "",
    meta := fun p => if p = [".jtcmake", "o1"] then some [] else none }

/-- Counterexample to C2 as stated: when the failed action wrote only
the first of the two outputs and the second does not exist, `os.utime`
on the second output raises (`postprocess` reports failure), the second
output's mtime is not reset to the sentinel, and the rule's metadata
record is NOT deleted. -/
theorem claim_C2_counterexample :
    (c2Rule.postprocess false c2FSbad).2 = false
    ∧ (c2Rule.postprocess false c2FSbad).1.mtime ["o2"] ≠ some 0
    ∧ (c2Rule.postprocess false c2FSbad).1.meta c2Rule.metadata_fname
        = some [] := by
  refine ⟨by decide, by decide, by decide⟩

/-- C2 (amended): when every output artifact of the rule exists at
post-processing time — e.g. the failed action overwrote outputs that
previous runs had produced — the failure path resets every output's
mtime to the sentinel 0, leaves every other path's mtime unchanged, and
deletes the rule's metadata record (leaving other cache files alone).
If an output is missing, `os.utime` raises instead: outputs earlier in
the list are already zeroed, later ones are untouched, and the record
is not deleted (see the counterexample). -/
theorem claim_C2_amended : ∀ (r : Rule) (fs : FS),
    (∀ y ∈ r.yfiles, (fs.mtime y).isSome = true) →
    ((r.postprocess false fs).2 = true
    ∧ (∀ y ∈ r.yfiles, (r.postprocess false fs).1.mtime y = some 0)
    ∧ (∀ p, p ∉ r.yfiles → (r.postprocess false fs).1.mtime p = fs.mtime p)
    ∧ (r.postprocess false fs).1.meta r.metadata_fname = none
    ∧ (∀ q, q ≠ r.metadata_fname →
        (r.postprocess false fs).1.meta q = fs.meta q)) := by
  intro r fs h
  obtain ⟨c1, c2, c3, c4, c5⟩ := utime_all_zero_ok r.yfiles fs h
  rcases hu : utime_all_zero fs r.yfiles with ⟨fs1, ok⟩
  rw [hu] at c1 c2 c3 c4 c5
  simp only at c1 c2 c3 c4 c5
  subst c1
  have hpp : r.postprocess false fs
      = (fs1.removeMeta r.metadata_fname, true) := by
    simp [Rule.postprocess, hu]
  rw [hpp]
  refine ⟨rfl, ?_, ?_, ?_, ?_⟩
  · intro y hy
    simpa [FS.removeMeta] using c2 y hy
  · intro p hp
    simpa [FS.removeMeta] using c3 p hp
  · simp [FS.removeMeta]
  · intro q hq
    simp [FS.removeMeta, hq, c5]

/-- A state in which both outputs of `c2Rule` exist. -/
def c2FSgood : FS :=
  { mtime := fun p => if p = ["o1"] then some 5 else
      if p = ["o2"] then some 7 else none,
    hash := fun _ => "",
    meta := fun p => if p = [".jtcmake", "o1"] then some [] else none }

/-- Witness for the amended C2: with both outputs present, both mtimes
are reset to 0 and the metadata record is deleted. -/
theorem claim_C2_witness :
    (c2Rule.postprocess false c2FSgood).2 = true
    ∧ (c2Rule.postprocess false c2FSgood).1.mtime ["o1"] = some 0
    ∧ (c2Rule.postprocess false c2FSgood).1.mtime ["o2"] = some 0
    ∧ (c2Rule.postprocess false c2FSgood).1.meta c2Rule.metadata_fname
        = none := by
  have h := claim_C2_amended c2Rule c2FSgood (by decide)
  exact ⟨h.1, h.2.1 ["o1"] (by decide), h.2.1 ["o2"] (by decide), h.2.2.2.1⟩

/-- Witness for C10: a sink counting the forwarded messages; an `info`
writer forwards a `warning` message and drops a `debug` one. -/
theorem claim_C10_witness :
    ((QUANT_LOG_LEVEL TLoglevel.info ≤ QUANT_LOG_LEVEL TLoglevel.warning)
        ↔ levelLeSpec TLoglevel.info TLoglevel.warning = true)
    ∧ (IWriter.write { loglevel := .info, _write := fun n _ _ => n + 1 }
        (0 : Nat) ["m"] .warning = 1)
    ∧ (IWriter.write { loglevel := .info, _write := fun n _ _ => n + 1 }
        (0 : Nat) ["m"] .debug = 0) := by
  refine ⟨(claim_C10 Nat ⟨.info, fun n _ _ => n + 1⟩ 0 ["m"] .warning).1, ?_, ?_⟩
  · exact (claim_C10 Nat ⟨.info, fun n _ _ => n + 1⟩ 0 ["m"] .warning).2.1 rfl
  · exact (claim_C10 Nat ⟨.info, fun n _ _ => n + 1⟩ 0 ["m"] .debug).2.2 rfl

/-! ## C7: success post-processing and the cache round trip -/

theorem decodeKey_encodeKey : ∀ k : DeepKey, decodeKey (encodeKey k) = some k := by
  intro k
  induction k with
  | nil => rfl
  | cons a rest ih =>
    simp only [encodeKey, List.map_cons, decodeKey, List.mapM_cons] at *
    cases a <;> simp_all [encodeJKey]

theorem decodeEntry_encodeEntry : ∀ e : Entry,
    decodeEntry (encodeEntry e) = some e := by
  rintro ⟨k, h, t⟩
  simp [encodeEntry, decodeEntry, decodeKey_encodeKey]

theorem decodeEntries_encodeEntries : ∀ es : List Entry,
    decodeEntries (encodeEntries es) = some es := by
  intro es
  induction es with
  | nil => rfl
  | cons e rest ih =>
    simp only [encodeEntries, List.map_cons, decodeEntries, List.mapM_cons] at *
    simp_all [decodeEntry_encodeEntry]

theorem jsonRoundTrip_id : ∀ es : List Entry, jsonRoundTrip es = es := by
  intro es
  simp [jsonRoundTrip, decodeEntries_encodeEntries]

theorem create_vfile_hashes_eq (fs : FS) (vfiles : List (DeepKey × XFile)) :
    create_vfile_hashes fs vfiles = vfile_record fs vfiles := by
  simp [create_vfile_hashes, jsonRoundTrip_id]

/-- C7: for a rule with a first output and at least one tracked-content
input, success post-processing writes the metadata record to
`parent(first output)/.jtcmake/name(first output)`, replacing any
previous record there with the ordered `(DeepKey, hash, mtime)` list
over the tracked inputs; reading it back with `load_vfile_hashes`
returns exactly that list; nothing else in the filesystem changes; and
the JSON encode/decode of a DeepKey (`tuple` of the loaded list) is the
identity, so each stored key equals the original input's key. -/
theorem claim_C7 : ∀ (r : Rule) (fs : FS) (y0 : FPath) (ys : List FPath),
    r.yfiles = y0 :: ys →
    0 < r.xvfiles.length →
    ((r.postprocess true fs).2 = true
    ∧ r.metadata_fname = y0.dropLast ++ [".jtcmake", y0.getLastD ""]
    ∧ (r.postprocess true fs).1.meta r.metadata_fname
        = some (vfile_record fs r.xvfiles)
    ∧ load_vfile_hashes (r.postprocess true fs).1 r.metadata_fname
        = vfile_record fs r.xvfiles
    ∧ (∀ q, q ≠ r.metadata_fname →
        (r.postprocess true fs).1.meta q = fs.meta q)
    ∧ (r.postprocess true fs).1.mtime = fs.mtime
    ∧ (r.postprocess true fs).1.hash = fs.hash
    ∧ (∀ k : DeepKey, decodeKey (encodeKey k) = some k)) := by
  intro r fs y0 ys hy hlen
  have hpp : r.postprocess true fs
      = (save_vfile_hashes fs r.metadata_fname r.xvfiles, true) := by
    simp [Rule.postprocess, Rule.update_xvfile_hashes, hlen]
  rw [hpp]
  refine ⟨rfl, ?_, ?_, ?_, ?_, rfl, rfl, decodeKey_encodeKey⟩
  · simp [Rule.metadata_fname, hy]
  · simp [save_vfile_hashes, create_vfile_hashes_eq]
  · simp [load_vfile_hashes, save_vfile_hashes, create_vfile_hashes_eq]
  · intro q hq
    simp [save_vfile_hashes, hq]

/-! ## C1: the tracked-content (hash cache) decision -/

theorem should_update_eval (r : Rule) (u : List Nat) (fs : FS)
    (hx : ∀ kf ∈ r.xfiles, ∃ t, fs.mtime kf.2.path = some t ∧ t ≠ 0)
    (hall : ∀ y ∈ r.yfiles, (fs.mtime y).isSome = true)
    (hpos : 0 < r.oldest_y fs)
    (htr : ∀ kf ∈ r.xfiles, r.oldest_y fs < (fs.mtime kf.2.path).getD 0 →
      kf.2.isVFile = true) :
    (r.should_update u false fs).1
      = .ok (su_check_vfiles fs
          (hash_dic (load_vfile_hashes fs r.metadata_fname))
          (r.xfiles.filter
            (fun kf => decide (r.oldest_y fs < (fs.mtime kf.2.path).getD 0)))) := by
  have hsu := su_check_inputs_ok false fs r.xfiles hx
  have hany := yfiles_any_none_false fs r.yfiles hall
  have hcol := su_collect_all_tracked fs (r.oldest_y fs) r.xfiles htr
  unfold Rule.should_update
  rw [hsu]
  by_cases hlen : 0 < (r.xfiles.filter
      (fun kf => decide (r.oldest_y fs < (fs.mtime kf.2.path).getD 0))).length
  · simp [hany, if_neg (not_le.mpr hpos), hcol, hlen]
  · have hnil : r.xfiles.filter
        (fun kf => decide (r.oldest_y fs < (fs.mtime kf.2.path).getD 0)) = [] := by
      cases hfe : r.xfiles.filter
          (fun kf => decide (r.oldest_y fs < (fs.mtime kf.2.path).getD 0)) with
      | nil => rfl
      | cons a l => rw [hfe] at hlen; simp at hlen
    rw [hnil] at hcol
    simp [hany, if_neg (not_le.mpr hpos), hcol, su_check_vfiles, hnil]

theorem su_check_vfiles_iff (fs : FS) (dic : DeepKey → Option (String × Int)) :
    ∀ xs : List (DeepKey × XFile),
    su_check_vfiles fs dic xs = true ↔
      ∃ kf ∈ xs, dic kf.1 = none
        ∨ ∃ h t, dic kf.1 = some (h, t)
            ∧ (fs.mtime kf.2.path).getD 0 ≠ t ∧ fs.hash kf.2.path ≠ h := by
  intro xs
  induction xs with
  | nil => simp [su_check_vfiles]
  | cons hd rest ih =>
    obtain ⟨k0, f0⟩ := hd
    cases hdic : dic k0 with
    | none =>
      simp only [su_check_vfiles, hdic]
      constructor
      · intro _
        exact ⟨(k0, f0), List.mem_cons_self _ _, Or.inl hdic⟩
      · intro _
        trivial
    | some ht =>
      obtain ⟨h, t⟩ := ht
      by_cases hcond : (fs.mtime f0.path).getD 0 ≠ t ∧ fs.hash f0.path ≠ h
      · simp only [su_check_vfiles, hdic, if_pos hcond]
        constructor
        · intro _
          exact ⟨(k0, f0), List.mem_cons_self _ _,
            Or.inr ⟨h, t, hdic, hcond.1, hcond.2⟩⟩
        · intro _
          trivial
      · simp only [su_check_vfiles, hdic, if_neg hcond]
        rw [ih]
        constructor
        · rintro ⟨kf, hm, hc⟩
          exact ⟨kf, List.mem_cons_of_mem _ hm, hc⟩
        · rintro ⟨kf, hm, hc⟩
          rcases List.mem_cons.mp hm with he | hr
          · subst he
            simp only at hc
            rcases hc with hnone | ⟨h2, t2, hsome, hmt, hh⟩
            · rw [hdic] at hnone
              exact absurd hnone (by simp)
            · rw [hdic] at hsome
              simp only [Option.some.injEq, Prod.mk.injEq] at hsome
              obtain ⟨he1, he2⟩ := hsome
              subst he1
              subst he2
              exact absurd ⟨hmt, hh⟩ hcond
          · exact ⟨kf, hr, hc⟩

/-- C1: in the scenario the claim describes — all inputs exist with
nonzero mtimes, no output missing, oldest output mtime positive, every
input newer than the oldest output tracked-content — `should_update`
answers stale exactly when some newer tracked input either has no entry
under its DeepKey in the loaded cache, or has an entry whose mtime
differs from the current one AND whose hash differs from the recomputed
one.  In particular an equal cached mtime makes the input count as
unchanged.  The second conjunct isolates that case: when every newer
tracked input has a cache entry with mtime equal to the current one,
the verdict is "not stale", and since `fs` (in particular its hash
oracle `fs.hash`) is universally quantified and unconstrained by the
hypotheses, the verdict is reached without consulting any hash. -/
theorem claim_C1 : ∀ (r : Rule) (updated : List Nat) (fs : FS),
    (∀ kf ∈ r.xfiles, ∃ t, fs.mtime kf.2.path = some t ∧ t ≠ 0) →
    (∀ y ∈ r.yfiles, (fs.mtime y).isSome = true) →
    0 < r.oldest_y fs →
    (∀ kf ∈ r.xfiles, r.oldest_y fs < (fs.mtime kf.2.path).getD 0 →
      kf.2.isVFile = true) →
    (((r.should_update updated false fs).1 = .ok true ↔
      ∃ kf ∈ r.xfiles, r.oldest_y fs < (fs.mtime kf.2.path).getD 0
        ∧ (hash_dic (load_vfile_hashes fs r.metadata_fname) kf.1 = none
          ∨ ∃ h t, hash_dic (load_vfile_hashes fs r.metadata_fname) kf.1
                = some (h, t)
              ∧ (fs.mtime kf.2.path).getD 0 ≠ t ∧ fs.hash kf.2.path ≠ h))
    ∧ ((∀ kf ∈ r.xfiles, r.oldest_y fs < (fs.mtime kf.2.path).getD 0 →
          ∃ h, hash_dic (load_vfile_hashes fs r.metadata_fname) kf.1
              = some (h, (fs.mtime kf.2.path).getD 0)) →
        (r.should_update updated false fs).1 = .ok false)) := by
  intro r u fs hx hall hpos htr
  have heval := should_update_eval r u fs hx hall hpos htr
  constructor
  · rw [heval]
    simp only [Except.ok.injEq]
    rw [su_check_vfiles_iff]
    constructor
    · rintro ⟨kf, hm, hc⟩
      rw [List.mem_filter] at hm
      exact ⟨kf, hm.1, of_decide_eq_true hm.2, hc⟩
    · rintro ⟨kf, hm, hnew, hc⟩
      exact ⟨kf, List.mem_filter.mpr ⟨hm, decide_eq_true hnew⟩, hc⟩
  · intro hquiet
    rw [heval]
    have hfalse : su_check_vfiles fs
        (hash_dic (load_vfile_hashes fs r.metadata_fname))
        (r.xfiles.filter
          (fun kf => decide (r.oldest_y fs < (fs.mtime kf.2.path).getD 0)))
        = false := by
      cases hb : su_check_vfiles fs
          (hash_dic (load_vfile_hashes fs r.metadata_fname))
          (r.xfiles.filter
            (fun kf => decide (r.oldest_y fs < (fs.mtime kf.2.path).getD 0))) with
      | false => rfl
      | true =>
        rw [su_check_vfiles_iff] at hb
        obtain ⟨kf, hm, hc⟩ := hb
        rw [List.mem_filter] at hm
        have hnew := of_decide_eq_true hm.2
        obtain ⟨h, hdic⟩ := hquiet kf hm.1 hnew
        rcases hc with hnone | ⟨h2, t2, hsome, hmt, hh⟩
        · rw [hdic] at hnone
          exact absurd hnone (by simp)
        · rw [hdic] at hsome
          simp only [Option.some.injEq, Prod.mk.injEq] at hsome
          exact absurd hsome.2 hmt
    rw [hfalse]

/-- The C1 rule: one tracked input `in` at key `("k",)`, one output
`out`. -/
def c1Rule : Rule :=
  { id := 0, name := ["r"], yfiles := [["out"]],
    xfiles := [([JKey.str "k"], { path := ["in"], isVFile := true })],
    deplist := [] }

/-- `in` (mtime 20) is newer than `out` (mtime 10); the cache at
`.jtcmake/out` holds `(("k",), "H", 20)`, so the cached mtime equals
the current one. -/
def c1FS : FS :=
  { mtime := fun p => if p = ["in"] then some 20 else
      if p = ["out"] then some 10 else none,
    hash := fun _ => "H",
    meta := fun p => if p = [".jtcmake", "out"] then
      some [([JKey.str "k"], "H", 20)] else none }

/-- Witness for C1: the newer tracked input has a cache entry with an
equal mtime, so the rule is judged up to date. -/
theorem claim_C1_witness :
    (c1Rule.should_update [] false c1FS).1 = .ok false := by
  have h := claim_C1 c1Rule [] c1FS
    (by
      intro kf hm
      simp only [c1Rule, List.mem_singleton] at hm
      subst hm
      exact ⟨20, by decide, by decide⟩)
    (by
      intro y hy
      simp only [c1Rule, List.mem_singleton] at hy
      subst hy
      decide)
    (by decide)
    (by
      intro kf hm _
      simp only [c1Rule, List.mem_singleton] at hm
      subst hm
      rfl)
  refine h.2 ?_
  intro kf hm _
  simp only [c1Rule, List.mem_singleton] at hm
  subst hm
  exact ⟨"H", by decide⟩

/-- The C7 rule: first output `d/out`, one tracked input `in` at key
`("a",)`. -/
def c7Rule : Rule :=
  { id := 0, name := ["r"], yfiles := [["d", "out"]],
    xfiles := [([JKey.str "a"], { path := ["in"], isVFile := true })],
    deplist := [] }

/-- `in` exists with mtime 3 and hash `H`; no cache file exists yet. -/
def c7FS : FS :=
  { mtime := fun p => if p = ["in"] then some 3 else none,
    hash := fun p => if p = ["in"] then "H" else "",
    meta := fun _ => none }

/-- Witness for C7: the record lands at `d/.jtcmake/out` and contains
the key, hash and mtime of the tracked input. -/
theorem claim_C7_witness :
    (c7Rule.postprocess true c7FS).1.meta c7Rule.metadata_fname
      = some [([JKey.str "a"], "H", 3)]
    ∧ c7Rule.metadata_fname = ["d", ".jtcmake", "out"] := by
  have h := claim_C7 c7Rule c7FS ["d", "out"] [] rfl (by decide)
  constructor
  · rw [h.2.2.1]
    decide
  · rw [h.2.1]
    decide

end JTCMake

namespace LightMake

/-! ## C8: rejection of invalid rule declarations -/

/-- C8: registration rejects invalid declarations.  (1) When the name
is free but some leaf of the prefixed nested output path has a real
path already present in the root group's used-path set, `Group.add`
raises the path-already-used `ValueError` — and, the model being a pure
function into `Except`, the returned value carries no new state, so
nothing is registered.  (2) `create_rule` raises the
path-must-contain-at-least-one-str `ValueError` whenever the flattened
output path has no path strings.  (The nested-path helpers
`flatten_nested`/`map_nested` are modelled from the spec; see their
definitions.) -/
theorem claim_C8 : ∀ (realpath : String → String) (g : GroupState)
    (pfx name : String) (path : NPath),
    ((name ∉ g.children →
      (∃ p ∈ flatten_nested (add_pfx pfx path), realpath p ∈ g.path_str_set) →
      group_add realpath g pfx name path = .error .pathUsed))
    ∧ (flatten_nested path = [] → create_rule path = .error .noPath) := by
  intro realpath g pfx name path
  constructor
  · rintro hname ⟨p, hp, hused⟩
    unfold group_add
    rw [if_neg hname]
    have hany : (((flatten_nested (add_pfx pfx path)).map realpath).any
        (fun q => decide (q ∈ g.path_str_set))) = true := by
      rw [List.any_eq_true]
      exact ⟨realpath p, List.mem_map_of_mem _ hp, decide_eq_true hused⟩
    simp [hany]
  · intro hflat
    unfold create_rule
    rw [hflat]
    rfl

/-- A root-group state that already uses the real path `/x/out`. -/
def c8G : GroupState := { path_str_set := ["/x/out"], children := [] }

/-- Witness for C8: adding a rule whose prefixed output resolves to the
already-used `/x/out` errors, and a rule with an empty nested path
errors at construction. -/
theorem claim_C8_witness :
    group_add id c8G "/x/" "a" (.leaf "out") = .error .pathUsed
    ∧ create_rule (.seq []) = .error .noPath := by
  constructor
  · refine (claim_C8 id c8G "/x/" "a" (.leaf "out")).1 (by simp [c8G])
      ⟨"/x/out", ?_, by simp [c8G]⟩
    have habs : isAbs "out" = false := by decide
    have happ : ("/x/" ++ "out" : String) = "/x/out" := by decide
    simp [add_pfx, flatten_nested, habs, happ]
  · refine (claim_C8 id c8G "/x/" "a" (.seq [])).2 ?_
    simp [flatten_nested, flatten_seq]

end LightMake
